import Mathlib

/-!
Shallow embedding of the lnobserver event-detection and animation core.

The application polls a channels-geo API, diffs successive snapshots of channel
ids, and maintains a bounded list of channel events (App component,
`fetchChannelsGeo`); the graph component renders the events, throttles an audio
cue, draws a debug lightning bolt, projects node positions, and owns the zoom
transform (`LightningGraph`).  The pure fragments of both files are translated
below; DOM, audio and network side effects are represented by their observable
data (event lists, played-sound timestamps, warning flags).  Timestamps
(`Date.now()` values, milliseconds) are modelled as `Int`; geographic and
screen coordinates as `ℚ`.
-/

namespace LnObserver

/-- The status string union `"open" | "closed"` used for channels and channel
events.  `open` is a Lean keyword, so the first constructor is `opened`. -/
inductive EvStatus
  | opened
  | closed
  deriving DecidableEq

/-- A detected channel event `{ id: string; ts: number; status: "open" | "closed" }`. -/
structure ChannelEvent where
  id : String
  ts : Int
  status : EvStatus
  deriving DecidableEq

/-- The event-detection loops of `fetchChannelsGeo`: one `open` event for each
id of `currentChannelIds` absent from `prevChannels` (first loop), then one
`closed` event for each id of `prevChannels` absent from `currentChannelIds`
(second loop).  The JS sets are modelled as duplicate-free lists in iteration
order; the per-event `Date.now()` calls of one pass are modelled by the single
wall-clock value `now`. -/
def diffEvents (prevChannels currentChannelIds : List String) (now : Int) :
    List ChannelEvent :=
  ((currentChannelIds.filter fun id => decide (id ∉ prevChannels)).map
     fun id => { id := id, ts := now, status := EvStatus.opened }) ++
  ((prevChannels.filter fun id => decide (id ∉ currentChannelIds)).map
     fun id => { id := id, ts := now, status := EvStatus.closed })

/-- JS `xs.slice(-n)` for a nonnegative count `n`: the last `n` elements.
In JS, `slice(-0)` is `slice(0)`, which returns the whole array. -/
def jsSliceNeg (l : List α) (n : Nat) : List α :=
  if n = 0 then l else l.drop (l.length - n)

/-- Event detection with the burst cap: when more than `cap` events are
detected, a warning is logged (second component `true`) and the list is
truncated with `newEvents.slice(-MAX_CHANNEL_EVENTS)`. -/
def detectChannelEvents (prevChannels currentChannelIds : List String)
    (now : Int) (cap : Nat) : List ChannelEvent × Bool :=
  let newEvents := diffEvents prevChannels currentChannelIds now
  if newEvents.length > cap then (jsSliceNeg newEvents cap, true)
  else (newEvents, false)

/-- The `setChannelEvents` updater: keep only previous events from the last
5 seconds (wall-clock `now` captured once), append the new events, and keep
only the last `cap` events. -/
def admitEvents (prev newEvents : List ChannelEvent) (now : Int) (cap : Nat) :
    List ChannelEvent :=
  jsSliceNeg ((prev.filter fun e => decide (now - e.ts < 5000)) ++ newEvents) cap

/-- Counting occurrences of `x` in a filtered duplicate-free list. -/
theorem countP_filter_eq_of_nodup {x : String} {p : String → Bool} :
    ∀ l : List String, l.Nodup →
      ((l.filter p).countP fun a => decide (a = x))
        = if x ∈ l ∧ p x = true then 1 else 0 := by
  intro l hl
  induction l with
  | nil => simp
  | cons a l ih =>
    rcases List.nodup_cons.mp hl with ⟨hax, hnd⟩
    by_cases hpa : p a = true
    · rw [List.filter_cons_of_pos hpa, List.countP_cons]
      by_cases hx : a = x
      · subst hx
        have hnotmem : ¬ (a ∈ l ∧ p a = true) := fun h => hax h.1
        rw [ih hnd, if_neg hnotmem]
        simp [hpa]
      · rw [ih hnd]
        have : (x ∈ a :: l ∧ p x = true) ↔ (x ∈ l ∧ p x = true) := by
          constructor
          · rintro ⟨hmem, hpx⟩
            rcases List.mem_cons.mp hmem with h | h
            · exact absurd h.symm hx
            · exact ⟨h, hpx⟩
          · rintro ⟨hmem, hpx⟩; exact ⟨List.mem_cons_of_mem _ hmem, hpx⟩
        rw [if_congr this rfl rfl]
        simp [hx]
    · rw [List.filter_cons_of_neg hpa, ih hnd]
      have : (x ∈ a :: l ∧ p x = true) ↔ (x ∈ l ∧ p x = true) := by
        constructor
        · rintro ⟨hmem, hpx⟩
          rcases List.mem_cons.mp hmem with h | h
          · subst h; exact absurd hpx hpa
          · exact ⟨h, hpx⟩
        · rintro ⟨hmem, hpx⟩; exact ⟨List.mem_cons_of_mem _ hmem, hpx⟩
      rw [if_congr this rfl rfl]

/-- C1: For every pair of duplicate-free channel-id lists P (previous snapshot,
non-empty) and C (current snapshot), the diff pass emits, before any cap
truncation, exactly one open event for each id in C ∖ P, exactly one closed
event for each id in P ∖ C, and no event for any id in P ∩ C. -/
theorem diffEvents_counts (prev cur : List String) (now : Int)
    (hp : prev.Nodup) (hc : cur.Nodup) (hne : prev ≠ []) (x : String) :
    ((diffEvents prev cur now).countP
        (fun e => decide (e.id = x ∧ e.status = EvStatus.opened))
      = if x ∈ cur ∧ x ∉ prev then 1 else 0)
    ∧ ((diffEvents prev cur now).countP
        (fun e => decide (e.id = x ∧ e.status = EvStatus.closed))
      = if x ∈ prev ∧ x ∉ cur then 1 else 0)
    ∧ (x ∈ prev → x ∈ cur → ∀ e ∈ diffEvents prev cur now, e.id ≠ x) := by
  refine ⟨?_, ?_, ?_⟩
  · rw [diffEvents, List.countP_append, List.countP_map, List.countP_map]
    have h2 : (prev.filter fun id => decide (id ∉ cur)).countP
        ((fun e => decide (e.id = x ∧ e.status = EvStatus.opened)) ∘
          (fun id => ({ id := id, ts := now, status := EvStatus.closed } : ChannelEvent)))
        = 0 := by
      apply List.countP_eq_zero.mpr
      intro a _
      simp
    rw [h2, Nat.add_zero]
    have h1 : ((fun e => decide (e.id = x ∧ e.status = EvStatus.opened)) ∘
          (fun id => ({ id := id, ts := now, status := EvStatus.opened } : ChannelEvent)))
        = fun a => decide (a = x) := by
      funext a; simp
    rw [h1, countP_filter_eq_of_nodup cur hc]
    by_cases hmem : x ∈ cur ∧ x ∉ prev
    · rw [if_pos ⟨hmem.1, by simpa using hmem.2⟩, if_pos hmem]
    · rw [if_neg (by simpa using hmem), if_neg hmem]
  · rw [diffEvents, List.countP_append, List.countP_map, List.countP_map]
    have h2 : (cur.filter fun id => decide (id ∉ prev)).countP
        ((fun e => decide (e.id = x ∧ e.status = EvStatus.closed)) ∘
          (fun id => ({ id := id, ts := now, status := EvStatus.opened } : ChannelEvent)))
        = 0 := by
      apply List.countP_eq_zero.mpr
      intro a _
      simp
    rw [h2, Nat.zero_add]
    have h1 : ((fun e => decide (e.id = x ∧ e.status = EvStatus.closed)) ∘
          (fun id => ({ id := id, ts := now, status := EvStatus.closed } : ChannelEvent)))
        = fun a => decide (a = x) := by
      funext a; simp
    rw [h1, countP_filter_eq_of_nodup prev hp]
    by_cases hmem : x ∈ prev ∧ x ∉ cur
    · rw [if_pos ⟨hmem.1, by simpa using hmem.2⟩, if_pos hmem]
    · rw [if_neg (by simpa using hmem), if_neg hmem]
  · intro hxp hxc e he
    rw [diffEvents, List.mem_append] at he
    rcases he with he | he
    · rcases List.mem_map.mp he with ⟨a, ha, rfl⟩
      rcases List.mem_filter.mp ha with ⟨_, hnp⟩
      have hnp' : a ∉ prev := by simpa using hnp
      intro hax
      have hax' : a = x := hax
      subst hax'
      exact hnp' hxp
    · rcases List.mem_map.mp he with ⟨a, ha, rfl⟩
      rcases List.mem_filter.mp ha with ⟨_, hnc⟩
      have hnc' : a ∉ cur := by simpa using hnc
      intro hax
      have hax' : a = x := hax
      subst hax'
      exact hnc' hxc

/-- Witness for C1 at prev = ["a"], cur = ["a", "b"], x = "b": one open event
for "b", no closed event for it. -/
theorem diffEvents_counts_witness :
    (["a"] : List String).Nodup ∧ (["a", "b"] : List String).Nodup
    ∧ (["a"] : List String) ≠ []
    ∧ (((diffEvents ["a"] ["a", "b"] 0).countP
          (fun e => decide (e.id = "b" ∧ e.status = EvStatus.opened))
        = if "b" ∈ (["a", "b"] : List String) ∧ "b" ∉ (["a"] : List String) then 1 else 0)
      ∧ ((diffEvents ["a"] ["a", "b"] 0).countP
          (fun e => decide (e.id = "b" ∧ e.status = EvStatus.closed))
        = if "b" ∈ (["a"] : List String) ∧ "b" ∉ (["a", "b"] : List String) then 1 else 0)
      ∧ ("b" ∈ (["a"] : List String) → "b" ∈ (["a", "b"] : List String) →
          ∀ e ∈ diffEvents ["a"] ["a", "b"] 0, e.id ≠ "b")) :=
  ⟨by decide, by decide, by decide,
   diffEvents_counts ["a"] ["a", "b"] 0 (by decide) (by decide) (by decide) "b"⟩

/-- C3: admission (`setChannelEvents` updater) drops prior events older than
the 5000 ms window, appends the new events, and keeps the most recent `cap`
entries; afterwards the pending collection never exceeds the cap. -/
theorem admitEvents_spec (prev nw : List ChannelEvent) (now : Int) (cap : Nat)
    (hcap : 0 < cap) :
    (admitEvents prev nw now cap).length ≤ cap
    ∧ List.IsSuffix (admitEvents prev nw now cap)
        ((prev.filter fun e => decide (now - e.ts < 5000)) ++ nw)
    ∧ ∀ e ∈ admitEvents prev nw now cap,
        e ∈ nw ∨ (e ∈ prev ∧ now - e.ts < 5000) := by
  have hcap' : cap ≠ 0 := Nat.pos_iff_ne_zero.mp hcap
  have hdef : admitEvents prev nw now cap
      = ((prev.filter fun e => decide (now - e.ts < 5000)) ++ nw).drop
          (((prev.filter fun e => decide (now - e.ts < 5000)) ++ nw).length - cap) := by
    simp [admitEvents, jsSliceNeg, hcap']
  refine ⟨?_, ?_, ?_⟩
  · rw [hdef, List.length_drop]
    omega
  · rw [hdef]
    exact List.drop_suffix _ _
  · intro e he
    rw [hdef] at he
    have hmem := (List.drop_suffix _ _).subset he
    rcases List.mem_append.mp hmem with h | h
    · rcases List.mem_filter.mp h with ⟨hp, hw⟩
      exact Or.inr ⟨hp, by simpa using hw⟩
    · exact Or.inl h

/-- Witness for C3 at a one-event pending list whose event is 6000 ms old,
no new events, cap 30. -/
theorem admitEvents_spec_witness :
    (0 : Nat) < 30
    ∧ ((admitEvents [{ id := "a", ts := 0, status := EvStatus.closed }] [] 6000 30).length ≤ 30
      ∧ List.IsSuffix (admitEvents [{ id := "a", ts := 0, status := EvStatus.closed }] [] 6000 30)
          (([({ id := "a", ts := 0, status := EvStatus.closed } : ChannelEvent)].filter
              fun e => decide ((6000 : Int) - e.ts < 5000)) ++ [])
      ∧ ∀ e ∈ admitEvents [{ id := "a", ts := 0, status := EvStatus.closed }] [] 6000 30,
          e ∈ ([] : List ChannelEvent)
          ∨ (e ∈ [({ id := "a", ts := 0, status := EvStatus.closed } : ChannelEvent)]
              ∧ (6000 : Int) - e.ts < 5000)) :=
  ⟨by decide, admitEvents_spec [{ id := "a", ts := 0, status := EvStatus.closed }] [] 6000 30 (by decide)⟩

/-- C6: when a single diff pass detects more events than the cap, the list is
truncated to exactly the most recent `cap` events (a tail of the detection
pass) and a warning is logged; with at most `cap` events nothing is truncated
and no warning is logged.  `detectChannelEvents` is a total function: it never
throws. -/
theorem detectChannelEvents_spec (prev cur : List String) (now : Int) (cap : Nat)
    (hcap : 0 < cap) :
    (detectChannelEvents prev cur now cap).1.length ≤ cap
    ∧ List.IsSuffix (detectChannelEvents prev cur now cap).1 (diffEvents prev cur now)
    ∧ ((diffEvents prev cur now).length > cap →
        (detectChannelEvents prev cur now cap).1.length = cap
        ∧ (detectChannelEvents prev cur now cap).2 = true)
    ∧ ((diffEvents prev cur now).length ≤ cap →
        detectChannelEvents prev cur now cap = (diffEvents prev cur now, false)) := by
  have hcap' : cap ≠ 0 := Nat.pos_iff_ne_zero.mp hcap
  by_cases hlen : (diffEvents prev cur now).length > cap
  · have hdef : detectChannelEvents prev cur now cap
        = ((diffEvents prev cur now).drop ((diffEvents prev cur now).length - cap), true) := by
      simp [detectChannelEvents, jsSliceNeg, hcap', hlen]
    refine ⟨?_, ?_, ?_, ?_⟩
    · rw [hdef]; simp [List.length_drop]; omega
    · rw [hdef]; exact List.drop_suffix _ _
    · intro _
      rw [hdef]
      refine ⟨?_, rfl⟩
      simp [List.length_drop]
      omega
    · intro h; omega
  · have hdef : detectChannelEvents prev cur now cap = (diffEvents prev cur now, false) := by
      simp [detectChannelEvents, hlen]
    refine ⟨?_, ?_, ?_, ?_⟩
    · rw [hdef]; exact Nat.le_of_not_lt hlen
    · rw [hdef]
    · intro h; exact absurd h hlen
    · intro _; exact hdef

/-- Witness for C6 at prev = ["p"], cur = ["c"], cap = 30: two events detected,
below the cap, so no truncation and no warning. -/
theorem detectChannelEvents_spec_witness :
    (0 : Nat) < 30
    ∧ ((detectChannelEvents ["p"] ["c"] 0 30).1.length ≤ 30
      ∧ List.IsSuffix (detectChannelEvents ["p"] ["c"] 0 30).1 (diffEvents ["p"] ["c"] 0)
      ∧ ((diffEvents ["p"] ["c"] 0).length > 30 →
          (detectChannelEvents ["p"] ["c"] 0 30).1.length = 30
          ∧ (detectChannelEvents ["p"] ["c"] 0 30).2 = true)
      ∧ ((diffEvents ["p"] ["c"] 0).length ≤ 30 →
          detectChannelEvents ["p"] ["c"] 0 30 = (diffEvents ["p"] ["c"] 0, false))) :=
  ⟨by decide, detectChannelEvents_spec ["p"] ["c"] 0 30 (by decide)⟩

/-- C10: within one diff pass every open event precedes every closed event
(the list is its open part followed by its closed part), so tail truncation
preferentially retains closed events: if any open event survives `slice(-cap)`,
every closed event does. -/
theorem diffEvents_open_before_closed (prev cur : List String) (now : Int) (cap : Nat) :
    (diffEvents prev cur now
      = ((diffEvents prev cur now).filter fun e => decide (e.status = EvStatus.opened))
        ++ ((diffEvents prev cur now).filter fun e => decide (e.status = EvStatus.closed)))
    ∧ ((∃ e ∈ jsSliceNeg (diffEvents prev cur now) cap, e.status = EvStatus.opened) →
        ∀ e ∈ diffEvents prev cur now, e.status = EvStatus.closed →
          e ∈ jsSliceNeg (diffEvents prev cur now) cap) := by
  have hopens : ∀ e ∈ ((cur.filter fun id => decide (id ∉ prev)).map
      fun id => ({ id := id, ts := now, status := EvStatus.opened } : ChannelEvent)),
      e.status = EvStatus.opened := by
    intro e he
    rcases List.mem_map.mp he with ⟨a, _, rfl⟩
    rfl
  have hcloseds : ∀ e ∈ ((prev.filter fun id => decide (id ∉ cur)).map
      fun id => ({ id := id, ts := now, status := EvStatus.closed } : ChannelEvent)),
      e.status = EvStatus.closed := by
    intro e he
    rcases List.mem_map.mp he with ⟨a, _, rfl⟩
    rfl
  constructor
  · rw [diffEvents, List.filter_append, List.filter_append]
    have h1 : (((cur.filter fun id => decide (id ∉ prev)).map
        fun id => ({ id := id, ts := now, status := EvStatus.opened } : ChannelEvent)).filter
          fun e => decide (e.status = EvStatus.opened))
        = ((cur.filter fun id => decide (id ∉ prev)).map
            fun id => ({ id := id, ts := now, status := EvStatus.opened } : ChannelEvent)) := by
      apply List.filter_eq_self.mpr
      intro e he
      simp [hopens e he]
    have h2 : (((prev.filter fun id => decide (id ∉ cur)).map
        fun id => ({ id := id, ts := now, status := EvStatus.closed } : ChannelEvent)).filter
          fun e => decide (e.status = EvStatus.opened)) = [] := by
      apply List.filter_eq_nil_iff.mpr
      intro e he
      simp [hcloseds e he]
    have h3 : (((cur.filter fun id => decide (id ∉ prev)).map
        fun id => ({ id := id, ts := now, status := EvStatus.opened } : ChannelEvent)).filter
          fun e => decide (e.status = EvStatus.closed)) = [] := by
      apply List.filter_eq_nil_iff.mpr
      intro e he
      simp [hopens e he]
    have h4 : (((prev.filter fun id => decide (id ∉ cur)).map
        fun id => ({ id := id, ts := now, status := EvStatus.closed } : ChannelEvent)).filter
          fun e => decide (e.status = EvStatus.closed))
        = ((prev.filter fun id => decide (id ∉ cur)).map
            fun id => ({ id := id, ts := now, status := EvStatus.closed } : ChannelEvent)) := by
      apply List.filter_eq_self.mpr
      intro e he
      simp [hcloseds e he]
    rw [h1, h2, h3, h4, List.append_nil, List.nil_append]
  · rintro ⟨o, ho, hoStat⟩ e he heStat
    by_cases hcap0 : cap = 0
    · simpa [jsSliceNeg, hcap0] using he
    · rw [jsSliceNeg, if_neg hcap0] at ho ⊢
      set opens := ((cur.filter fun id => decide (id ∉ prev)).map
        fun id => ({ id := id, ts := now, status := EvStatus.opened } : ChannelEvent)) with hopensDef
      set closeds := ((prev.filter fun id => decide (id ∉ cur)).map
        fun id => ({ id := id, ts := now, status := EvStatus.closed } : ChannelEvent)) with hclosedsDef
      have hsplit : diffEvents prev cur now = opens ++ closeds := rfl
      set k := (diffEvents prev cur now).length - cap with hk
      rcases le_or_lt k opens.length with hle | hgt
      · have hdropEq : (diffEvents prev cur now).drop k = opens.drop k ++ closeds := by
          rw [hsplit, List.drop_append_of_le_length hle]
        rw [hdropEq]
        apply List.mem_append_right
        rw [hsplit] at he
        rcases List.mem_append.mp he with h | h
        · exact absurd heStat (by simp [hopens e h])
        · exact h
      · exfalso
        have hdropEq : (diffEvents prev cur now).drop k
            = closeds.drop (k - opens.length) := by
          rw [hsplit]
          have : k = opens.length + (k - opens.length) := by omega
          rw [this, List.drop_append]
          congr 1
          omega
        rw [hdropEq] at ho
        have : o ∈ closeds := (List.drop_suffix _ _).subset ho
        have := hcloseds o this
        rw [hoStat] at this
        exact EvStatus.noConfusion this

/-- Witness for C10 at prev = ["p"], cur = ["c"], cap = 2: both the open and
the closed event survive truncation. -/
theorem diffEvents_open_before_closed_witness :
    (diffEvents ["p"] ["c"] 0
      = ((diffEvents ["p"] ["c"] 0).filter fun e => decide (e.status = EvStatus.opened))
        ++ ((diffEvents ["p"] ["c"] 0).filter fun e => decide (e.status = EvStatus.closed)))
    ∧ (∃ e ∈ jsSliceNeg (diffEvents ["p"] ["c"] 0) 2, e.status = EvStatus.opened)
    ∧ (∀ e ∈ diffEvents ["p"] ["c"] 0, e.status = EvStatus.closed →
        e ∈ jsSliceNeg (diffEvents ["p"] ["c"] 0) 2) :=
  ⟨(diffEvents_open_before_closed ["p"] ["c"] 0 2).1, by decide,
   (diffEvents_open_before_closed ["p"] ["c"] 0 2).2 (by decide)⟩

/-- Geodata attached to a node: `{ lat: number; lon: number; country?: string }`. -/
structure Geo where
  lat : ℚ
  lon : ℚ
  country : Option String
  deriving DecidableEq

/-- A graph node `{ id: string; x?: number; y?: number; geo?: ... }`. -/
structure Node where
  id : String
  x : Option ℚ := none
  y : Option ℚ := none
  geo : Option Geo := none
  deriving DecidableEq

/-- A channel; the metadata fields (capacity, fees, ...) are optional and
unused by the observed logic, so they are omitted here. -/
structure Channel where
  id : String
  source : String
  target : String
  status : EvStatus
  deriving DecidableEq

/-- A JS `Set` built from a list of strings: duplicate-free, in first-insertion
order, as produced by `new Set(channelArr.map(c => c.id))`. -/
def jsSetOf (l : List String) : List String :=
  l.foldl (fun acc id => if id ∈ acc then acc else acc ++ [id]) []

/-- The App component state touched by `fetchChannelsGeo`: the `isFirstLoad`
and `prevChannelsRef` refs and the `nodes`, `channels` and `channelEvents`
state hooks.  Log lines and `lastUpdate` are side effects without bearing on
the claims and are omitted. -/
structure AppState where
  isFirstLoad : Bool
  prevChannels : List String
  nodes : List Node
  channels : List Channel
  channelEvents : List ChannelEvent
  deriving DecidableEq

/-- The initial component state: `useRef(true)`, `useRef(new Set())`,
`useState([])` three times. -/
def initAppState : AppState :=
  { isFirstLoad := true, prevChannels := [], nodes := [], channels := [],
    channelEvents := [] }

/-- One successful pass of `fetchChannelsGeo` after parsing, taking the
decoded `nodeArr` and `channelArr` as input.  On first load, or when the
previous channel set is empty, the state is re-baselined with no event
detection; otherwise events are detected against the previous snapshot,
capped, and admitted into the pending collection. -/
def fetchStep (st : AppState) (nodeArr : List Node) (channelArr : List Channel)
    (now : Int) (cap : Nat) : AppState :=
  let currentChannelIds := jsSetOf (channelArr.map (·.id))
  if st.isFirstLoad || st.prevChannels.isEmpty then
    { isFirstLoad := false, prevChannels := currentChannelIds,
      nodes := nodeArr, channels := channelArr, channelEvents := [] }
  else
    let newEvents :=
      if st.prevChannels.length > 0 then
        (detectChannelEvents st.prevChannels currentChannelIds now cap).1
      else []
    { isFirstLoad := false, prevChannels := currentChannelIds,
      nodes := nodeArr, channels := channelArr,
      channelEvents := admitEvents st.channelEvents newEvents now cap }

/-- C2: the very first accepted snapshot generates no channel events whatever
its content: starting from the initial state, one fetch pass only records the
baseline channel-id set and the node/channel state, and leaves the
channel-event collection empty. -/
theorem fetchStep_first_load (nodeArr : List Node) (channelArr : List Channel)
    (now : Int) (cap : Nat) :
    fetchStep initAppState nodeArr channelArr now cap
      = { isFirstLoad := false, prevChannels := jsSetOf (channelArr.map (·.id)),
          nodes := nodeArr, channels := channelArr, channelEvents := [] } := by
  simp [fetchStep, initAppState]

/-- C9: after a snapshot with zero channels is accepted, the next accepted
snapshot is also treated as a baseline even though it is not the first one:
it produces zero events, resets the pending-event collection to empty, and
replaces the baseline channel-id set. -/
theorem fetchStep_empty_snapshot_rebaseline (st : AppState)
    (nodeArr₁ : List Node) (now₁ : Int)
    (nodeArr₂ : List Node) (channelArr₂ : List Channel) (now₂ : Int) (cap : Nat) :
    (fetchStep (fetchStep st nodeArr₁ [] now₁ cap) nodeArr₂ channelArr₂ now₂ cap).channelEvents
        = []
    ∧ (fetchStep (fetchStep st nodeArr₁ [] now₁ cap) nodeArr₂ channelArr₂ now₂ cap).prevChannels
        = jsSetOf (channelArr₂.map (·.id))
    ∧ (fetchStep st nodeArr₁ [] now₁ cap).isFirstLoad = false := by
  have h₁ : (fetchStep st nodeArr₁ [] now₁ cap).prevChannels = [] := by
    by_cases h : st.isFirstLoad || st.prevChannels.isEmpty <;>
      simp [fetchStep, jsSetOf, h]
  have h₂ : (fetchStep st nodeArr₁ [] now₁ cap).isFirstLoad = false := by
    by_cases h : st.isFirstLoad || st.prevChannels.isEmpty <;>
      simp [fetchStep, h]
  set st₁ := fetchStep st nodeArr₁ [] now₁ cap with hst₁
  refine ⟨?_, ?_, h₂⟩ <;>
    simp [fetchStep, h₁, h₂]

/-- Model of `playLightningSound` stripped of the audio side effect: given the
`lastSoundTimeRef` value and the current `Date.now()`, return the updated ref
value and whether playback was initiated (1 second cooldown; playback errors
are swallowed and do not affect the ref). -/
def playLightningSound (lastSoundTime now : Int) : Int × Bool :=
  if now - lastSoundTime > 1000 then (now, true) else (lastSoundTime, false)

/-- The timestamps at which playback is actually initiated when
`playLightningSound` is attempted once per element of `attempts` (in order),
starting from ref value `last`. -/
def playedSounds : Int → List Int → List Int
  | _, [] => []
  | last, t :: ts =>
    let r := playLightningSound last t
    if r.2 then t :: playedSounds r.1 ts else playedSounds r.1 ts

/-- The batch call site of the render pass: the `channelEvents` prop is
truncated with `slice(-MAX_CHANNEL_EVENTS)` and `playLightningSound` is called
once for the whole non-empty batch; the per-event loop draws polylines and
plays no sound. -/
def batchSoundCalls (channelEvents : List ChannelEvent) (maxChannelEvents : Nat) : Nat :=
  let limitedEvents := jsSliceNeg channelEvents maxChannelEvents
  if limitedEvents.length > 0 then 1 else 0

/-- Sounds actually played are pairwise more than 1000 ms apart, and all play
strictly more than 1000 ms after the initial ref value. -/
theorem playedSounds_spaced (last : Int) (ts : List Int) :
    (playedSounds last ts).Pairwise (fun a b => a + 1000 < b)
    ∧ ∀ x ∈ playedSounds last ts, last + 1000 < x := by
  induction ts generalizing last with
  | nil => simp [playedSounds]
  | cons t ts ih =>
    by_cases h : t - last > 1000
    · have hr : playedSounds last (t :: ts) = t :: playedSounds t ts := by
        simp [playedSounds, playLightningSound, h]
      rcases ih t with ⟨hpw, hall⟩
      constructor
      · rw [hr]
        exact List.pairwise_cons.mpr ⟨hall, hpw⟩
      · rw [hr]
        intro x hx
        rcases List.mem_cons.mp hx with rfl | hx
        · omega
        · have := hall x hx; omega
    · have hr : playedSounds last (t :: ts) = playedSounds last ts := by
        simp [playedSounds, playLightningSound, h]
      rcases ih last with ⟨hpw, hall⟩
      rw [hr]
      exact ⟨hpw, hall⟩

/-- A list whose elements are pairwise more than 1000 apart has at most one
element in any closed window of width 1000. -/
theorem window_filter_le_one {l : List Int}
    (h : l.Pairwise fun a b => a + 1000 < b) (w : Int) :
    (l.filter fun t => decide (w ≤ t ∧ t ≤ w + 1000)).length ≤ 1 := by
  induction l with
  | nil => simp
  | cons a l ih =>
    rcases List.pairwise_cons.mp h with ⟨hhead, htail⟩
    by_cases hpa : w ≤ a ∧ a ≤ w + 1000
    · rw [List.filter_cons_of_pos (by simpa using hpa)]
      have hnil : (l.filter fun t => decide (w ≤ t ∧ t ≤ w + 1000)) = [] := by
        apply List.filter_eq_nil_iff.mpr
        intro b hb
        have := hhead b hb
        simp only [decide_eq_true_eq]
        omega
      rw [hnil]
      simp
    · rw [List.filter_cons_of_neg (by simpa using hpa)]
      exact ih htail

/-- C4: at most one audio cue is initiated per rolling 1000 ms window.  A
batch of pending effects makes at most one `playLightningSound` call; across
any sequence of playback attempts at arbitrary wall-clock times, the sounds
actually played number at most one in any 1000 ms window; and any attempt
within 1000 ms of the last played sound is suppressed. -/
theorem audio_cooldown (last w : Int) (attempts : List Int)
    (evs : List ChannelEvent) (cap : Nat) :
    batchSoundCalls evs cap ≤ 1
    ∧ ((playedSounds last attempts).filter
        fun t => decide (w ≤ t ∧ t ≤ w + 1000)).length ≤ 1
    ∧ ∀ now, now - last ≤ 1000 → playLightningSound last now = (last, false) := by
  refine ⟨?_, ?_, ?_⟩
  · by_cases h : (jsSliceNeg evs cap).length > 0 <;> simp [batchSoundCalls, h]
  · exact window_filter_le_one (playedSounds_spaced last attempts).1 w
  · intro now h
    rw [playLightningSound, if_neg (by omega)]

/-- Witness for C4 with attempts at 500, 800 and 2000 ms from ref value 0:
only the 2000 ms attempt plays, the window [0, 1000] holds no played sound,
and the attempt at 500 ms is suppressed. -/
theorem audio_cooldown_witness :
    batchSoundCalls [] 30 ≤ 1
    ∧ ((playedSounds 0 [500, 800, 2000]).filter
        fun t => decide ((0 : Int) ≤ t ∧ t ≤ 0 + 1000)).length ≤ 1
    ∧ ((500 : Int) - 0 ≤ 1000 ∧ playLightningSound 0 500 = (0, false)) :=
  ⟨(audio_cooldown 0 0 [500, 800, 2000] [] 30).1,
   (audio_cooldown 0 0 [500, 800, 2000] [] 30).2.1,
   by decide,
   (audio_cooldown 0 0 [500, 800, 2000] [] 30).2.2 500 (by decide)⟩

/-- Modelled from the spec: the zoom input modalities seen by the d3 zoom
behavior; the configured filter `event.type === "wheel"` admits only the
wheel modality.  A wheel event carries a multiplicative scale factor and a
translation adjustment. -/
inductive PointerInput
  | wheel (factor dx dy : ℚ)
  | mousedown
  | touchstart
  | dblclick
  deriving DecidableEq

/-- The zoom transform `{translate-x, translate-y, scale}` applied to the
`zoom-group` element. -/
structure ZoomTransform where
  translateX : ℚ
  translateY : ℚ
  scale : ℚ
  deriving DecidableEq

/-- Lower bound of `scaleExtent([0.5, 10])`. -/
def minScale : ℚ := 1 / 2

/-- Upper bound of `scaleExtent([0.5, 10])`. -/
def maxScale : ℚ := 10

def isWheelInput : PointerInput → Bool
  | .wheel _ _ _ => true
  | _ => false

/-- Modelled from the spec: the zoom update itself is implemented by the
external d3 zoom behavior, which the repository configures with
`scaleExtent([0.5, 10])` and a wheel-only filter; the behavior clamps the
requested scale to the extent and leaves the transform untouched for every
input rejected by the filter. -/
def applyZoomInput (t : ZoomTransform) (e : PointerInput) : ZoomTransform :=
  match e with
  | .wheel factor dx dy =>
    { translateX := t.translateX + dx, translateY := t.translateY + dy,
      scale := max minScale (min maxScale (t.scale * factor)) }
  | _ => t

/-- Folding zoom inputs preserves the scale bounds. -/
theorem zoom_fold_bounded : ∀ (es : List PointerInput) (t₀ : ZoomTransform),
    minScale ≤ t₀.scale → t₀.scale ≤ maxScale →
    minScale ≤ (es.foldl applyZoomInput t₀).scale
    ∧ (es.foldl applyZoomInput t₀).scale ≤ maxScale := by
  intro es
  induction es with
  | nil =>
    intro t₀ h1 h2
    exact ⟨h1, h2⟩
  | cons e es ih =>
    intro t₀ h1 h2
    rw [List.foldl_cons]
    cases e with
    | wheel factor dx dy =>
      apply ih
      · exact le_max_left _ _
      · apply max_le
        · rw [minScale, maxScale]; norm_num
        · exact min_le_left _ _
    | mousedown => exact ih t₀ h1 h2
    | touchstart => exact ih t₀ h1 h2
    | dblclick => exact ih t₀ h1 h2

/-- C5: starting from a transform whose scale is within [0.5, 10] (d3 starts
at the identity, scale 1), the scale never leaves the configured range under
any sequence of inputs, and only wheel input ever mutates the transform. -/
theorem zoom_scale_bounded (t₀ : ZoomTransform) (es : List PointerInput)
    (h₁ : minScale ≤ t₀.scale) (h₂ : t₀.scale ≤ maxScale) :
    (minScale ≤ (es.foldl applyZoomInput t₀).scale
      ∧ (es.foldl applyZoomInput t₀).scale ≤ maxScale)
    ∧ ∀ (t : ZoomTransform) (e : PointerInput),
        isWheelInput e = false → applyZoomInput t e = t := by
  refine ⟨zoom_fold_bounded es t₀ h₁ h₂, ?_⟩
  intro t e he
  cases e
  case wheel factor dx dy => simp [isWheelInput] at he
  all_goals rfl

/-- Witness for C5 starting from the identity transform with a large wheel
factor followed by a non-wheel input. -/
theorem zoom_scale_bounded_witness :
    (minScale ≤ (1 : ℚ) ∧ (1 : ℚ) ≤ maxScale)
    ∧ ((minScale ≤ ([PointerInput.wheel 1000 0 0,
            PointerInput.mousedown].foldl applyZoomInput
            { translateX := 0, translateY := 0, scale := 1 }).scale
        ∧ ([PointerInput.wheel 1000 0 0,
            PointerInput.mousedown].foldl applyZoomInput
            { translateX := 0, translateY := 0, scale := 1 }).scale ≤ maxScale)
      ∧ ∀ (t : ZoomTransform) (e : PointerInput),
          isWheelInput e = false → applyZoomInput t e = t) :=
  ⟨⟨by rw [minScale]; norm_num, by rw [maxScale]; norm_num⟩,
   zoom_scale_bounded { translateX := 0, translateY := 0, scale := 1 }
     [PointerInput.wheel 1000 0 0, PointerInput.mousedown]
     (by rw [minScale]; norm_num) (by rw [maxScale]; norm_num)⟩

/-- The debug-lightning index selection: `r1` and `r2` are the two
`Math.floor(Math.random() * nodePositions.length)` samples; a sampled
collision advances the second index cyclically.  (For an empty node list JS
computes `(r2 + 1) % 0 = NaN` and the subsequent indexing yields `undefined`;
in the model `% 0` is the identity and the out-of-bounds check below yields
the same "no effect" outcome.) -/
def debugLightningIndices (nodeCount r1 r2 : Nat) : Nat × Nat :=
  let idx1 := r1
  let idx2 := if idx1 = r2 then (r2 + 1) % nodeCount else r2
  (idx1, idx2)

/-- The debug branch of the render pass: when `triggerDebugLightning` is a
number greater than zero, one ad-hoc lightning is drawn between
`nodePositions[idx1]` and `nodePositions[idx2]` provided both are defined
(the `source && target` guard, i.e. both indices in bounds); the result is
the list of drawn index pairs. -/
def debugLightningEffects (triggerDebugLightning : Option Int)
    (nodeCount r1 r2 : Nat) : List (Nat × Nat) :=
  match triggerDebugLightning with
  | none => []
  | some t =>
    if t > 0 then
      let p := debugLightningIndices nodeCount r1 r2
      if p.1 < nodeCount && p.2 < nodeCount then [p] else []
    else []

/-- C7 fails as stated: for a single-node list the only possible sample is
r1 = r2 = 0 (`Math.floor(Math.random() * 1) = 0`), and a positive trigger
then draws exactly one effect between indices 0 and 0, which are not
distinct. -/
theorem debugLightning_singleton_counterexample :
    debugLightningEffects (some 1) 1 0 0 = [(0, 0)] := by decide

/-- Helper for C7: with at least two nodes and in-range samples, the chosen
indices are in bounds and distinct. -/
theorem debugLightningIndices_distinct (nodeCount r1 r2 : Nat)
    (h2 : 2 ≤ nodeCount) (hr1 : r1 < nodeCount) (hr2 : r2 < nodeCount) :
    (debugLightningIndices nodeCount r1 r2).1 < nodeCount
    ∧ (debugLightningIndices nodeCount r1 r2).2 < nodeCount
    ∧ (debugLightningIndices nodeCount r1 r2).1
        ≠ (debugLightningIndices nodeCount r1 r2).2 := by
  have hfst : (debugLightningIndices nodeCount r1 r2).1 = r1 := rfl
  have hsnd : (debugLightningIndices nodeCount r1 r2).2
      = if r1 = r2 then (r2 + 1) % nodeCount else r2 := rfl
  rw [hfst, hsnd]
  by_cases h : r1 = r2
  · subst h
    rw [if_pos rfl]
    refine ⟨hr1, Nat.mod_lt _ (by omega), ?_⟩
    by_cases hc : r1 + 1 < nodeCount
    · rw [Nat.mod_eq_of_lt hc]
      omega
    · have heq : r1 + 1 = nodeCount := by omega
      rw [heq, Nat.mod_self]
      omega
  · rw [if_neg h]
    exact ⟨hr1, hr2, h⟩

/-- C7 (amended): a trigger of 0 or unset produces no ad-hoc effect; a
positive trigger with at least two nodes and in-range random samples produces
exactly one effect between two distinct node indices (a sampled collision is
resolved by cyclically advancing the second index).  With fewer than two
nodes the original claim fails: an empty list yields no effect and a
single-node list yields one effect between equal indices. -/
theorem debugLightning_trigger_spec (nodeCount r1 r2 : Nat) :
    (debugLightningEffects none nodeCount r1 r2 = [])
    ∧ (∀ t : Int, t ≤ 0 → debugLightningEffects (some t) nodeCount r1 r2 = [])
    ∧ (2 ≤ nodeCount → r1 < nodeCount → r2 < nodeCount → ∀ t : Int, 0 < t →
        (debugLightningEffects (some t) nodeCount r1 r2).length = 1
        ∧ ∀ p ∈ debugLightningEffects (some t) nodeCount r1 r2, p.1 ≠ p.2) := by
  refine ⟨rfl, ?_, ?_⟩
  · intro t ht
    simp [debugLightningEffects, not_lt.mpr ht]
  · intro h2 hr1 hr2 t ht
    rcases debugLightningIndices_distinct nodeCount r1 r2 h2 hr1 hr2 with ⟨hi1, hi2, hne⟩
    have hdef : debugLightningEffects (some t) nodeCount r1 r2
        = [debugLightningIndices nodeCount r1 r2] := by
      simp [debugLightningEffects, ht, hi1, hi2]
    rw [hdef]
    refine ⟨rfl, ?_⟩
    intro p hp
    rcases List.mem_singleton.mp hp with rfl
    exact hne

/-- Witness for C7 (amended) at two nodes with colliding samples r1 = r2 = 0
and trigger 1: exactly one effect, between indices 0 and 1. -/
theorem debugLightning_trigger_spec_witness :
    (2 ≤ 2 ∧ (0 : Nat) < 2 ∧ (0 : Nat) < 2 ∧ (0 : Int) < 1)
    ∧ (debugLightningEffects (some 1) 2 0 0).length = 1
    ∧ ∀ p ∈ debugLightningEffects (some 1) 2 0 0, p.1 ≠ p.2 :=
  ⟨⟨by decide, by decide, by decide, by decide⟩,
   ((debugLightning_trigger_spec 2 0 0).2.2 (by decide) (by decide) (by decide)
      1 (by decide)).1,
   ((debugLightning_trigger_spec 2 0 0).2.2 (by decide) (by decide) (by decide)
      1 (by decide)).2⟩

/-- GeoJSON feature properties relevant to the Antarctica exclusion. -/
structure FeatureProps where
  name : Option String
  NAME : Option String
  deriving DecidableEq

/-- A landmass feature: `properties` may be absent, and the feature id is
optional. -/
structure MapFeature where
  properties : Option FeatureProps
  id : Option String
  deriving DecidableEq

/-- The exclusion test of the redraw effect: a feature is dropped when it has
properties and `properties.name`, `properties.NAME` or `f.id` identify
Antarctica (name `"Antarctica"` or id `"010"`). -/
def isExcludedFeature (f : MapFeature) : Bool :=
  match f.properties with
  | none => false
  | some p =>
    p.name == some "Antarctica" || p.NAME == some "Antarctica" || f.id == some "010"

/-- The `mapFeatures` computation: the landmass set actually fitted and drawn — the world
dataset with the configured exclusion applied before fitting. -/
def mapFeaturesOf (world : List MapFeature) : List MapFeature :=
  world.filter fun f => !(isExcludedFeature f)

/-- One entry of the `nodePositions` computation: a node with geodata is
projected with the fitted projection, falling back to the canvas center when
the projection returns null (`projection([lon, lat]) || [x, y]`); a node
without geodata is placed at the canvas center.  The fitted projection itself
is computed by the external d3 library (`geoMercator().fitSize`) from the
canvas size and the filtered landmass set; per the spec it is a pure function
with no hidden state, passed here as the parameter `proj`. -/
def projectNodePosition (width height : ℚ) (proj : ℚ × ℚ → Option (ℚ × ℚ))
    (n : Node) : ℚ × ℚ :=
  match n.geo with
  | none => (width / 2, height / 2)
  | some g =>
    match proj (g.lon, g.lat) with
    | none => (width / 2, height / 2)
    | some pxy => pxy

/-- The `nodePositions` computation: every node of the snapshot mapped to itself with the
projected `x`/`y` filled in; a total function, so no node causes a draw
failure. -/
def nodePositionsOf (width height : ℚ) (proj : ℚ × ℚ → Option (ℚ × ℚ))
    (nodes : List Node) : List Node :=
  nodes.map fun n =>
    let p := projectNodePosition width height proj n
    { n with x := some p.1, y := some p.2 }

/-- C8: for a fixed canvas size and fixed fitted projection (determined by
the filtered landmass set), node projection is deterministic — equal geo
inputs always produce equal positions — a node lacking geo data projects to
the canvas center, a null projection result falls back to the canvas center,
and the fitted landmass set contains no excluded feature. -/
theorem projection_deterministic (width height : ℚ)
    (proj : ℚ × ℚ → Option (ℚ × ℚ)) (n m : Node) (world : List MapFeature) :
    (n.geo = m.geo →
      projectNodePosition width height proj n
        = projectNodePosition width height proj m)
    ∧ (n.geo = none →
        projectNodePosition width height proj n = (width / 2, height / 2))
    ∧ (∀ g, n.geo = some g → proj (g.lon, g.lat) = none →
        projectNodePosition width height proj n = (width / 2, height / 2))
    ∧ (∀ f ∈ mapFeaturesOf world, isExcludedFeature f = false) := by
  refine ⟨?_, ?_, ?_, ?_⟩
  · intro h
    unfold projectNodePosition
    rw [h]
  · intro h
    unfold projectNodePosition
    rw [h]
  · intro g hg hproj
    have hred : projectNodePosition width height proj n
        = match proj (g.lon, g.lat) with
          | none => (width / 2, height / 2)
          | some pxy => pxy := by
      unfold projectNodePosition
      rw [hg]
    rw [hred, hproj]
  · intro f hf
    have h' : f ∈ world ∧ isExcludedFeature f = false := by
      simpa [mapFeaturesOf] using hf
    exact h'.2

/-- Witness for C8: a null projection, two geo-less nodes, a node with
geodata, and a world list holding only Antarctica. -/
theorem projection_deterministic_witness :
    (projectNodePosition 100 80 (fun _ => none) { id := "n" }
      = projectNodePosition 100 80 (fun _ => none) { id := "m" })
    ∧ (projectNodePosition 100 80 (fun _ => none) { id := "n" }
        = ((100 : ℚ) / 2, (80 : ℚ) / 2))
    ∧ (projectNodePosition 100 80 (fun _ => none)
        { id := "g", geo := some { lat := 1, lon := 2, country := none } }
        = ((100 : ℚ) / 2, (80 : ℚ) / 2))
    ∧ (∀ f ∈ mapFeaturesOf
        [({ properties := some { name := some "Antarctica", NAME := none },
            id := none } : MapFeature)],
        isExcludedFeature f = false) :=
  ⟨(projection_deterministic 100 80 (fun _ => none) { id := "n" } { id := "m" } []).1 rfl,
   (projection_deterministic 100 80 (fun _ => none) { id := "n" } { id := "m" } []).2.1 rfl,
   (projection_deterministic 100 80 (fun _ => none)
      { id := "g", geo := some { lat := 1, lon := 2, country := none } } { id := "m" } []).2.2.1
      { lat := 1, lon := 2, country := none } rfl rfl,
   (projection_deterministic 100 80 (fun _ => none) { id := "n" } { id := "m" }
      [{ properties := some { name := some "Antarctica", NAME := none },
         id := none }]).2.2.2⟩

end LnObserver
